import Mathlib

/-!
Verification development for the notedeck subscription manager core.

Shallow embedding of `crates/notedeck/src/subman.rs`, `unknowns.rs` and
`accounts.rs`.  Machine-level details irrelevant to the verified claims are
reified as explicit parameters:

* 32-byte pubkeys / note ids and nostrdb note keys are modelled as `Nat`;
* `Instant` timestamps are modelled as `Nat` seconds (the only durations the
  code compares are whole seconds: 2 s debounce and 20 s idle expiration;
  `Instant` subtraction saturates at zero exactly like `Nat` subtraction);
* the relay pool's `subscribe_relay` send attempt is an oracle
  `String → Bool` (whether the immediate REQ send succeeded);
* `ndb.subscribe` is an oracle `Except String Nat` (fresh local id or error);
* `Uuid::new_v4` is an arbitrary supplied string `genId`;
* the one-slot `tx_ended` channel send is reified as a boolean output;
* a Rust `panic!`/`assert!`/`.expect` is reified as a distinguished outcome.

`BTreeMap`/`BTreeSet` are modelled as key-sorted association lists (`bumpBT`)
or deduplicated lists (`insertIfAbsent`); plain keyed maps whose iteration
order is irrelevant to the claims use association lists (`lookupAL`,
`insertAL`, `eraseAL`).
-/

namespace Notedeck

/-! ## Association-list map helpers -/

section ALMaps

variable {κ α : Type} [DecidableEq κ]

/-- Keyed lookup in an association list (first match wins). -/
def lookupAL : List (κ × α) → κ → Option α
  | [], _ => none
  | p :: rest, k => if p.1 = k then some p.2 else lookupAL rest k

/-- Keyed insert-or-replace in an association list. -/
def insertAL : List (κ × α) → κ → α → List (κ × α)
  | [], k, v => [(k, v)]
  | p :: rest, k, v => if p.1 = k then (k, v) :: rest else p :: insertAL rest k v

/-- Keyed removal from an association list (first match). -/
def eraseAL : List (κ × α) → κ → List (κ × α)
  | [], _ => []
  | p :: rest, k => if p.1 = k then rest else p :: eraseAL rest k

end ALMaps

section BTMaps

variable {α : Type}

/-- `BTreeMap`-style ordered entry update: find the slot for key `k` in a
key-sorted association list and replace its value by `f` of the old value,
inserting `f d` when the key is absent (this is Rust's
`map.entry(k).and_modify(f).or_insert(f(d))` pattern; `or_insert(v)` is
`f = id, d = v`, plain `insert` is `f = const v`). -/
def bumpBT : List (String × α) → String → (α → α) → α → List (String × α)
  | [], k, f, d => [(k, f d)]
  | p :: rest, k, f, d =>
    if k = p.1 then (p.1, f p.2) :: rest
    else if k < p.1 then (k, f d) :: p :: rest
    else p :: bumpBT rest k f d

/-- Strictly increasing keys: the shape invariant of a `BTreeMap` model. -/
def KeysSorted (m : List (String × α)) : Prop :=
  m.Pairwise fun p q => p.1 < q.1

instance (m : List (String × α)) : Decidable (KeysSorted m) := by
  unfold KeysSorted; infer_instance

end BTMaps

/-- `BTreeSet`-style collect: append the element unless already present
(iteration order of the model is first-insertion order; no verified claim
depends on set iteration order). -/
def insertIfAbsent (l : List String) (x : String) : List String :=
  if l.contains x then l else l ++ [x]

/-! ## Data model: filters, constraints, SubSpec (`subman.rs`) -/

/-- The projection of `enostr::Filter` that the verified code constructs:
`Filter::new().authors(..).kinds(..).build()` and `Filter::new().ids(..)`. -/
structure Filter where
  authors : List Nat := []
  kinds : List Nat := []
  ids : List Nat := []
deriving DecidableEq, Repr

/-- `SubConstraint` from `subman.rs`. -/
inductive SubConstraint where
  | oneShot
  | onlyLocal
  | onlyRemote
  | outboxRelays (relays : List String)
  | allowedRelays (relays : List String)
  | blockedRelays (relays : List String)
deriving DecidableEq, Repr

/-- `SubSpec` from `subman.rs`. -/
structure SubSpec where
  remote_id : String
  filters : List Filter
  outbox_relays : List String
  allowed_relays : List String
  blocked_relays : List String
  is_oneshot : Bool
  is_onlylocal : Bool
  is_onlyremote : Bool
deriving DecidableEq, Repr

/-- `SubSpecBuilder` from `subman.rs`. -/
structure SubSpecBuilder where
  remote_id : Option String := none
  filters : List Filter := []
  constraints : List SubConstraint := []
deriving DecidableEq, Repr

def SubSpecBuilder.new : SubSpecBuilder := {}

def SubSpecBuilder.remoteId (b : SubSpecBuilder) (id : String) : SubSpecBuilder :=
  { b with remote_id := some id }

def SubSpecBuilder.addFilters (b : SubSpecBuilder) (fs : List Filter) : SubSpecBuilder :=
  { b with filters := b.filters ++ fs }

def SubSpecBuilder.constraint (b : SubSpecBuilder) (c : SubConstraint) : SubSpecBuilder :=
  { b with constraints := b.constraints ++ [c] }

/-- One step of the constraint-collection loop in `SubSpecBuilder::build`. -/
def applyConstraint (acc : SubSpec) (c : SubConstraint) : SubSpec :=
  match c with
  | .oneShot => { acc with is_oneshot := true }
  | .onlyLocal => { acc with is_onlylocal := true }
  | .onlyRemote => { acc with is_onlyremote := true }
  | .outboxRelays rs => { acc with outbox_relays := acc.outbox_relays ++ rs }
  | .allowedRelays rs => { acc with allowed_relays := acc.allowed_relays ++ rs }
  | .blockedRelays rs => { acc with blocked_relays := acc.blocked_relays ++ rs }

/-- `SubSpecBuilder::build`; `genId` stands for the freshly generated
`Uuid::new_v4().to_string()` used when no remote id was supplied. -/
def SubSpecBuilder.build (b : SubSpecBuilder) (genId : String) : SubSpec :=
  b.constraints.foldl applyConstraint
    { remote_id := b.remote_id.getD genId
      filters := b.filters
      outbox_relays := []
      allowed_relays := []
      blocked_relays := []
      is_oneshot := false
      is_onlylocal := false
      is_onlyremote := false }

/-- Modelled from the spec: `RelaySpec` (its definition is not under `src/`;
only callers are) is a canonicalized URL plus two advisory NIP-65 booleans
`readable`/`writable`; `is_readable` reports the readable side and is used to
filter default relays. -/
structure RelaySpec where
  url : String
  readable : Bool
  writable : Bool
deriving DecidableEq, Repr

def RelaySpec.is_readable (rs : RelaySpec) : Bool := rs.readable

/-! ## Remote subscription state (`subman.rs`) -/

/-- `RelaySubState` from `subman.rs`. -/
inductive RelaySubState where
  | pending
  | syncing
  | current
  | error (msg : String)
  | closed
deriving DecidableEq, Repr

/-- `RemoteSubState` from `subman.rs`: the per-relay state map is a
`BTreeMap<String, RelaySubState>`; the one-slot `tx_ended` channel is left
out of the state and reified as the `sentEnd` output of operations. -/
structure RemoteSubState where
  remote_id : String
  relays : List (String × RelaySubState)
deriving DecidableEq, Repr

/-- Result of `RemoteSubState::consider_finished`: the returned boolean plus
whether `tx_ended.try_send(())` was attempted. -/
structure ConsiderResult where
  finished : Bool
  sentEnd : Bool
deriving DecidableEq, Repr

/-- `RemoteSubState::consider_finished` from `subman.rs`. -/
def RemoteSubState.consider_finished (rs : RemoteSubState) (is_oneshot : Bool) :
    ConsiderResult :=
  let stillSyncing := rs.relays.filter fun p => decide (p.2 = RelaySubState.syncing)
  if stillSyncing.isEmpty then
    if is_oneshot then { finished := true, sentEnd := true }
    else { finished := false, sentEnd := false }
  else { finished := false, sentEnd := false }

/-! ## SubError, SubState, SubReceiver, SubMan (`subman.rs`) -/

/-- `SubError` from `subman.rs` (the wrapped `nostrdb::Error` is its message). -/
inductive SubError where
  | streamEnded
  | internalError (msg : String)
  | ndbError (msg : String)
deriving DecidableEq, Repr

/-- `LocalSubState` from `subman.rs`: just the nostrdb `LocalId`. -/
structure LocalSubState where
  local_id : Nat
deriving DecidableEq, Repr

/-- `SubState` from `subman.rs`. -/
structure SubState where
  spec : SubSpec
  localSt : Option LocalSubState
  remoteSt : Option RemoteSubState
deriving DecidableEq, Repr

/-- `SubReceiver` from `subman.rs`: the local half carries the nostrdb local
id (the `ndb` handle and note-key stream stay external), the remote half
carries the remote id (the `rx_ended` channel is reified in `next`). -/
structure SubReceiver where
  localsub : Option Nat
  remotesub : Option String
deriving DecidableEq, Repr

/-- `SubMan` from `subman.rs`: the two subscription indexes, the idle map of
`close_unneeded_relays`, and the pool's relay URL set (`pool.urls()`).
`Rc<RefCell<SubState>>` sharing between the two indexes is modelled by
storing the same `SubState` value under both keys; no verified operation
mutates a shared state in a way either index observes. -/
structure SubMan where
  localIdx : List (Nat × SubState)
  remoteIdx : List (String × SubState)
  idle : List (String × Nat)
  pool : List String
deriving DecidableEq, Repr

/-- `SubMan::make_subscription`.  `sendOk url` is whether
`pool.subscribe_relay(remote_id, filters, url)` managed to send the REQ
immediately; `ndbSub` is the outcome of `ndb.subscribe(&spec.filters)`. -/
def SubMan.make_subscription (spec : SubSpec) (default_relays : List RelaySpec)
    (sendOk : String → Bool) (ndbSub : Except String Nat) :
    Except SubError (SubState × SubReceiver) :=
  let localRes : Except SubError (Option Nat) :=
    if spec.is_onlyremote then .ok none
    else
      match ndbSub with
      | .error e => .error (.ndbError e)
      | .ok lid => .ok (some lid)
  match localRes with
  | .error e => .error e
  | .ok maybeLocal =>
    let maybeRemote : Option RemoteSubState :=
      if spec.is_onlylocal then none
      else
        -- Determine which relays to use
        let relays : List String :=
          if spec.allowed_relays.isEmpty then
            (default_relays.filter fun rs => rs.is_readable).map fun rs => rs.url
          else spec.allowed_relays
        -- create the state map (collect into a BTreeMap), special-case blocked
        let states : List (String × RelaySubState) :=
          relays.foldl
            (fun m relay =>
              let rss :=
                if spec.blocked_relays.contains relay then RelaySubState.error "blocked"
                else if sendOk relay then RelaySubState.syncing
                else RelaySubState.pending
              bumpBT m relay (fun _ => rss) rss)
            []
        some { remote_id := spec.remote_id, relays := states }
    .ok
      ({ spec := spec, localSt := maybeLocal.map fun lid => { local_id := lid }
         remoteSt := maybeRemote },
       { localsub := maybeLocal, remotesub := maybeRemote.map fun rs => rs.remote_id })

/-- `SubMan::subscribe`. -/
def SubMan.subscribe (m : SubMan) (spec : SubSpec) (default_relays : List RelaySpec)
    (sendOk : String → Bool) (ndbSub : Except String Nat) :
    Except SubError (SubMan × SubReceiver) :=
  match SubMan.make_subscription spec default_relays sendOk ndbSub with
  | .error e => .error e
  | .ok (substate, subrcvr) =>
    let m1 :=
      match subrcvr.localsub with
      | some lid => { m with localIdx := insertAL m.localIdx lid substate }
      | none => m
    let m2 :=
      match subrcvr.remotesub with
      | some rid => { m1 with remoteIdx := insertAL m1.remoteIdx rid substate }
      | none => m1
    .ok (m2, subrcvr)

/-- Outcome of an unsubscribe call: `panic` reifies a failed `.expect`. -/
inductive UnsubOutcome where
  | ok (m : SubMan)
  | err (msg : String)
  | panic
deriving DecidableEq, Repr

/-- `SubMan::unsubscribe_substate`.  The best-effort CLOSE frames sent for
relays in `Syncing`/`Current` and the `tx_ended.try_send` do not alter the
indexed state and are not modelled; the two `.expect` index removals are. -/
def SubMan.unsubscribe_substate (m : SubMan) (ss : SubState) : UnsubOutcome :=
  let step1 : Option SubMan :=
    match ss.remoteSt with
    | some rs =>
      match lookupAL m.remoteIdx rs.remote_id with
      | some _ => some { m with remoteIdx := eraseAL m.remoteIdx rs.remote_id }
      | none => none -- .expect "removed from remote index"
    | none => some m
  match step1 with
  | none => .panic
  | some m1 =>
    match ss.localSt with
    | some ls =>
      match lookupAL m1.localIdx ls.local_id with
      | some _ => .ok { m1 with localIdx := eraseAL m1.localIdx ls.local_id }
      | none => .panic -- .expect "removed from local index"
    | none => .ok m1

/-- `SubMan::unsubscribe_local_id`. -/
def SubMan.unsubscribe_local_id (m : SubMan) (local_id : Nat) : UnsubOutcome :=
  match lookupAL m.localIdx local_id with
  | none => .err ("substate for " ++ toString local_id ++ " not found")
  | some ss => SubMan.unsubscribe_substate m ss

/-- `SubMan::unsubscribe_remote_id`. -/
def SubMan.unsubscribe_remote_id (m : SubMan) (remote_id : String) : UnsubOutcome :=
  match lookupAL m.remoteIdx remote_id with
  | none => .err ("substate for " ++ remote_id ++ " not found")
  | some ss => SubMan.unsubscribe_substate m ss

/-! ## SubReceiver operations (`subman.rs`) -/

/-- `SubReceiver::next`.  The async suspension is reified by oracles: when a
local stream exists, `localOut` is what `localstrm.next()` resolved to
(`none` = local stream ended); when both halves exist, `localWins` says which
arm of the `select!` fired; when a remote half exists, `remoteOut` is what
`rx_ended.next()` resolved to (`none` = channel closed). -/
def SubReceiver.next (r : SubReceiver) (localOut : Option (List Nat)) (localWins : Bool)
    (remoteOut : Option Unit) : Except SubError (List Nat) :=
  match r.localsub, r.remotesub with
  | some _, some _ =>
    if localWins then
      match localOut with
      | some notes => .ok notes
      | none => .error .streamEnded
    else .error .streamEnded
  | some _, none =>
    match localOut with
    | some notes => .ok notes
    | none => .error .streamEnded
  | none, some _ =>
    -- only remote sub (prefetch only, values not returned);
    -- in both cases the stream has ended
    match remoteOut with
    | some _ => .error .streamEnded -- an EOSE was observed
    | none => .error .streamEnded -- the subscription was closed
  | none, none => .error (.internalError "unimplmented")

/-- `SubReceiver::poll`.  `pollNotes lid` is
`ndb.poll_for_notes(local_id, max_notes)`; the result `none` reifies the
`assert!(self.localsub.is_some())` panic. -/
def SubReceiver.poll (r : SubReceiver) (pollNotes : Nat → List Nat) :
    Option (List Nat) :=
  match r.localsub with
  | some lid => some (pollNotes lid)
  | none => none

/-! ## Idle reaper (`subman.rs`) -/

/-- `SubMan::needed_relays`: URLs of the default relays plus every relay of a
remote-indexed substate whose `RelaySubState` is not terminal. -/
def SubMan.needed_relays (m : SubMan) (default_relays : List RelaySpec) : List String :=
  let base := default_relays.foldl (fun acc rs => insertIfAbsent acc rs.url) []
  m.remoteIdx.foldl
    (fun acc p =>
      match p.2.remoteSt with
      | none => acc
      | some rsub =>
        rsub.relays.foldl
          (fun acc q =>
            match q.2 with
            | .error _ => acc -- terminal, relay not needed
            | .closed => acc -- terminal, relay not needed
            | _ => insertIfAbsent acc q.1)
          acc)
    base

/-- `SubMan::IDLE_EXPIRATION_SECS`. -/
def IDLE_EXPIRATION_SECS : Nat := 20

/-- `SubMan::close_unneeded_relays` at monotonic time `now` (seconds). -/
def SubMan.close_unneeded_relays (m : SubMan) (default_relays : List RelaySpec)
    (now : Nat) : SubMan :=
  let current_relays := m.pool
  let needed_relays := m.needed_relays default_relays
  let unneeded_relays := current_relays.filter fun r => !(needed_relays.contains r)
  -- remove all needed relays from the idle collection
  let idle1 := needed_relays.foldl (fun acc r => eraseAL acc r) m.idle
  -- manage idle relays: entry(r).or_insert(now), collecting the expired
  let idle2 := unneeded_relays.foldl (fun acc r => bumpBT acc r id now) idle1
  let expired := unneeded_relays.filter fun r =>
    match lookupAL idle2 r with
    | some t => decide (now - t > IDLE_EXPIRATION_SECS)
    | none => false
  -- close the expired relays
  let pool1 := current_relays.filter fun r => !(expired.contains r)
  -- remove the expired relays from the idle collection
  let idle3 := expired.foldl (fun acc r => eraseAL acc r) idle2
  { m with pool := pool1, idle := idle3 }

/-! ## UnknownIds (`unknowns.rs`) -/

/-- `UnknownId` from `unknowns.rs` (32-byte values modelled as `Nat`). -/
inductive UnknownId where
  | pubkey (pk : Nat)
  | id (nid : Nat)
deriving DecidableEq, Repr

/-- `UnknownIds` from `unknowns.rs`.  The `HashMap<UnknownId, HashSet<RelayUrl>>`
is modelled as an association list with hint lists (hash iteration order is
arbitrary in the source; no verified claim depends on it), the two `Instant`s
as `Nat` seconds. -/
structure UnknownIds where
  ids : List (UnknownId × List String) := []
  first_updated : Option Nat := none
  last_updated : Option Nat := none
deriving DecidableEq, Repr

/-- `UnknownIds::ready_to_send` at time `now`; simple debouncer. -/
def UnknownIds.ready_to_send (u : UnknownIds) (now : Nat) : Bool :=
  if u.ids.isEmpty then false
  -- we trigger on first set
  else if u.first_updated = u.last_updated then true
  else
    match u.last_updated with
    | none => true
    | some last => decide (now - last ≥ 2)

/-- `UnknownIds::mark_updated` at time `now`. -/
def UnknownIds.mark_updated (u : UnknownIds) (now : Nat) : UnknownIds :=
  { u with
    first_updated := if u.first_updated.isNone then some now else u.first_updated
    last_updated := some now }

/-- `UnknownIds::clear`: resets the id bag only; the two timestamps are kept. -/
def UnknownIds.clear (u : UnknownIds) : UnknownIds :=
  { u with ids := [] }

/-- `UnknownIds::add_pubkey_if_missing` / `add_note_id_if_missing` on the
path where the local store does not yet have the id:
`ids.entry(id).or_default()` followed by `mark_updated`. -/
def UnknownIds.add_if_missing (u : UnknownIds) (i : UnknownId) (now : Nat) : UnknownIds :=
  let ids1 :=
    match lookupAL u.ids i with
    | some _ => u.ids
    | none => u.ids ++ [(i, [])]
  UnknownIds.mark_updated { u with ids := ids1 } now

/-- `MAX_CHUNK_IDS` from `UnknownIds::generate_resolution_requests`. -/
def MAX_CHUNK_IDS : Nat := 500

/-- Rust's `slice::chunks(500)`: consecutive runs of up to 500 elements. -/
def chunksMax (l : List Nat) : List (List Nat) :=
  if l.isEmpty then []
  else l.take MAX_CHUNK_IDS :: chunksMax (l.drop MAX_CHUNK_IDS)
termination_by l.length
decreasing_by
  simp only [List.length_drop]
  cases l with
  | nil => simp_all
  | cons a t => simp [MAX_CHUNK_IDS]; omega

/-- The bucket push of `generate_resolution_requests`: a pubkey goes into the
`Vec<Pubkey>` half of a bucket, a note id into the `Vec<NoteId>` half. -/
def pushUnknown (i : UnknownId) (b : List Nat × List Nat) : List Nat × List Nat :=
  match i with
  | .pubkey pk => (b.1 ++ [pk], b.2)
  | .id nid => (b.1, b.2 ++ [nid])

/-- The grouping loop of `generate_resolution_requests`: every id is pushed
into the `""` bucket and into one bucket per relay hint, in a
`BTreeMap<RelayUrl, (Vec<Pubkey>, Vec<NoteId>)>`. -/
def idsByRelay (bag : List (UnknownId × List String)) :
    List (String × (List Nat × List Nat)) :=
  bag.foldl
    (fun m p =>
      ("" :: p.2).foldl
        (fun m relay => bumpBT m relay (pushUnknown p.1) ([], []))
        m)
    []

/-- The template `SubSpecBuilder` of `generate_resolution_requests`:
`OneShot`, `OnlyRemote`, plus `AllowedRelays([relay])` for hinted buckets. -/
def resolutionBuilder (relay : String) : SubSpecBuilder :=
  let ssb := (SubSpecBuilder.new.constraint .oneShot).constraint .onlyRemote
  if relay = "" then ssb else ssb.constraint (.allowedRelays [relay])

/-- The per-pubkey-chunk SubSpec: one filter `authors=pks, kinds=[0]`. -/
def pkChunkSpec (genId : String) (relay : String) (chunk : List Nat) : SubSpec :=
  ((resolutionBuilder relay).addFilters
      [{ authors := chunk, kinds := [0], ids := [] }]).build genId

/-- The per-note-chunk SubSpec: one filter `ids=nids`. -/
def nidChunkSpec (genId : String) (relay : String) (chunk : List Nat) : SubSpec :=
  ((resolutionBuilder relay).addFilters
      [{ authors := [], kinds := [], ids := chunk }]).build genId

/-- `UnknownIds::generate_resolution_requests`.  `genId` stands for the
generated UUID remote ids (the source draws a fresh UUID per spec; no claim
compares remote ids, so a single supplied value is threaded through). -/
def UnknownIds.generate_resolution_requests (u : UnknownIds) (genId : String) :
    List SubSpec :=
  (idsByRelay u.ids).foldl
    (fun subspecs p =>
      subspecs ++ (chunksMax p.2.1).map (pkChunkSpec genId p.1)
        ++ (chunksMax p.2.2).map (nidChunkSpec genId p.1))
    []

/-! ## Accounts (`accounts.rs`) -/

/-- `Accounts` from `accounts.rs`, restricted to what `remove_account`,
`select_account` and `clear_selected_account` touch: accounts are their
pubkeys (`Nat`), `storage` models the pubkey set held by the external
`KeyStorageType` backend. -/
structure Accounts where
  accounts : List Nat
  currently_selected_account : Option Nat
  storage : List Nat
deriving DecidableEq, Repr

/-- `Accounts::select_account` (the external `key_store.select_key` call has
no observable state here). -/
def Accounts.select_account (a : Accounts) (index : Nat) : Accounts :=
  match a.accounts.get? index with
  | some _ => { a with currently_selected_account := some index }
  | none => a

/-- `Accounts::clear_selected_account`. -/
def Accounts.clear_selected_account (a : Accounts) : Accounts :=
  { a with currently_selected_account := none }

/-- `Accounts::remove_account`. -/
def Accounts.remove_account (a : Accounts) (index : Nat) : Accounts :=
  match a.accounts.get? index with
  | none => a
  | some account =>
    let a1 : Accounts :=
      { a with
        storage := a.storage.erase account -- key_store.remove_key(account)
        accounts := a.accounts.eraseIdx index }
    match a1.currently_selected_account with
    | none => a1
    | some selected_index =>
      if selected_index > index then a1.select_account (selected_index - 1)
      else if selected_index = index then
        if a1.accounts.isEmpty then
          -- If no accounts remain, clear the selection
          a1.clear_selected_account
        else if index ≥ a1.accounts.length then
          -- If the removed account was the last one, select the new last account
          a1.select_account (a1.accounts.length - 1)
        else
          -- Otherwise, select the account at the same position
          a1.select_account index
      else a1

/-! ## Lemmas about the map models -/

section ALLemmas

variable {κ α : Type} [DecidableEq κ]

theorem lookupAL_eq_none_iff (m : List (κ × α)) (k : κ) :
    lookupAL m k = none ↔ ∀ q ∈ m, q.1 ≠ k := by
  induction m with
  | nil => simp [lookupAL]
  | cons p rest ih =>
    simp only [lookupAL]
    by_cases hpk : p.1 = k
    · rw [if_pos hpk]
      constructor
      · intro hc; exact absurd hc (by simp)
      · intro hall; exact absurd hpk (hall p (List.mem_cons_self p rest))
    · rw [if_neg hpk, ih]
      constructor
      · intro hall q hq
        rcases List.mem_cons.mp hq with h1 | h1
        · rw [h1]; exact hpk
        · exact hall q h1
      · intro hall q hq
        exact hall q (List.mem_cons_of_mem p hq)

theorem lookupAL_insertAL (m : List (κ × α)) (k : κ) (v : α) (a : κ) :
    lookupAL (insertAL m k v) a = if a = k then some v else lookupAL m a := by
  induction m with
  | nil =>
    simp only [insertAL, lookupAL]
    by_cases h : a = k
    · rw [if_pos (h ▸ rfl : k = a), if_pos h]
    · rw [if_neg fun hc => h hc.symm, if_neg h]
  | cons p rest ih =>
    simp only [insertAL]
    by_cases hpk : p.1 = k
    · rw [if_pos hpk]
      simp only [lookupAL]
      by_cases h : a = k
      · rw [if_pos (h ▸ rfl : k = a), if_pos h]
      · rw [if_neg fun hc => h hc.symm, if_neg h,
          if_neg fun hc : p.1 = a => h (hc.symm.trans hpk)]
    · rw [if_neg hpk]
      simp only [lookupAL]
      by_cases hpa : p.1 = a
      · have hak : ¬a = k := fun hc => hpk (hpa.trans hc)
        rw [if_pos hpa, if_neg hak, if_pos hpa]
      · rw [if_neg hpa, ih]
        by_cases h : a = k
        · rw [if_pos h, if_pos h]
        · rw [if_neg h, if_neg h, if_neg hpa]

theorem eraseAL_insertAL_of_none (m : List (κ × α)) (k : κ) (v : α)
    (h : lookupAL m k = none) : eraseAL (insertAL m k v) k = m := by
  induction m with
  | nil => simp [insertAL, eraseAL]
  | cons p rest ih =>
    simp only [lookupAL] at h
    by_cases hpk : p.1 = k
    · rw [if_pos hpk] at h
      exact absurd h (by simp)
    · rw [if_neg hpk] at h
      simp only [insertAL, if_neg hpk, eraseAL, ih h]

theorem lookupAL_eraseAL_ne (m : List (κ × α)) (k a : κ) (h : a ≠ k) :
    lookupAL (eraseAL m k) a = lookupAL m a := by
  induction m with
  | nil => simp [eraseAL]
  | cons p rest ih =>
    simp only [eraseAL, lookupAL]
    by_cases hpk : p.1 = k
    · have hpa : ¬p.1 = a := fun hc => h (hc.symm.trans hpk)
      rw [if_pos hpk, if_neg hpa]
    · rw [if_neg hpk]
      simp only [lookupAL]
      by_cases hpa : p.1 = a
      · rw [if_pos hpa, if_pos hpa]
      · rw [if_neg hpa, if_neg hpa, ih]

theorem eraseAL_sublist (m : List (κ × α)) (k : κ) : (eraseAL m k).Sublist m := by
  induction m with
  | nil => simp [eraseAL]
  | cons p rest ih =>
    simp only [eraseAL]
    by_cases hpk : p.1 = k
    · rw [if_pos hpk]
      exact List.sublist_cons_self p rest
    · rw [if_neg hpk]
      exact ih.cons₂ p

theorem lookupAL_none_of_sublist {m mm : List (κ × α)} (hsub : mm.Sublist m) (k : κ)
    (h : lookupAL m k = none) : lookupAL mm k = none :=
  (lookupAL_eq_none_iff mm k).mpr fun q hq =>
    (lookupAL_eq_none_iff m k).mp h q (hsub.mem hq)

end ALLemmas

section BTLemmas
variable {α : Type}

theorem keys_bumpBT_mem (m : List (String × α)) (k : String) (f : α → α) (d : α)
    (a : String) :
    a ∈ (bumpBT m k f d).map Prod.fst ↔ a = k ∨ a ∈ m.map Prod.fst := by
  induction m with
  | nil => simp [bumpBT, eq_comm]
  | cons p rest ih =>
    obtain ⟨k0, v0⟩ := p
    simp only [bumpBT]
    by_cases h1 : k = k0
    · rw [if_pos h1]
      subst h1
      simp only [List.map_cons, List.mem_cons]
      tauto
    · rw [if_neg h1]
      by_cases h2 : k < k0
      · rw [if_pos h2]
        simp only [List.map_cons, List.mem_cons]
      · rw [if_neg h2]
        simp only [List.map_cons, List.mem_cons, ih]
        tauto

theorem mem_bumpBT (m : List (String × α)) (k : String) (f : α → α) (d : α)
    (q : String × α) (hq : q ∈ bumpBT m k f d) :
    q ∈ m ∨ (q.1 = k ∧ (q.2 = f d ∨ ∃ b, (k, b) ∈ m ∧ q.2 = f b)) := by
  induction m with
  | nil =>
    simp only [bumpBT, List.mem_singleton] at hq
    subst hq
    exact Or.inr ⟨rfl, Or.inl rfl⟩
  | cons p rest ih =>
    obtain ⟨k0, v0⟩ := p
    simp only [bumpBT] at hq
    by_cases h1 : k = k0
    · rw [if_pos h1] at hq
      rcases List.mem_cons.mp hq with h | h
      · subst h
        refine Or.inr ⟨h1.symm, Or.inr ⟨v0, ?_, rfl⟩⟩
        rw [h1]
        exact List.mem_cons_self _ _
      · exact Or.inl (List.mem_cons_of_mem _ h)
    · rw [if_neg h1] at hq
      by_cases h2 : k < k0
      · rw [if_pos h2] at hq
        rcases List.mem_cons.mp hq with h | h
        · subst h
          exact Or.inr ⟨rfl, Or.inl rfl⟩
        · exact Or.inl h
      · rw [if_neg h2] at hq
        rcases List.mem_cons.mp hq with h | h
        · rw [h]
          exact Or.inl (List.mem_cons_self _ _)
        · rcases ih h with h3 | ⟨h3, h4⟩
          · exact Or.inl (List.mem_cons_of_mem _ h3)
          · refine Or.inr ⟨h3, ?_⟩
            rcases h4 with h4 | ⟨b, hb, hqb⟩
            · exact Or.inl h4
            · exact Or.inr ⟨b, List.mem_cons_of_mem _ hb, hqb⟩

theorem keysSorted_bumpBT (m : List (String × α)) (k : String) (f : α → α) (d : α)
    (hm : KeysSorted m) : KeysSorted (bumpBT m k f d) := by
  induction m with
  | nil => simp [bumpBT, KeysSorted]
  | cons p rest ih =>
    obtain ⟨k0, v0⟩ := p
    rw [KeysSorted, List.pairwise_cons] at hm
    obtain ⟨hp, hrest⟩ := hm
    simp only [bumpBT]
    by_cases h1 : k = k0
    · rw [if_pos h1, KeysSorted, List.pairwise_cons]
      exact ⟨hp, hrest⟩
    · rw [if_neg h1]
      by_cases h2 : k < k0
      · rw [if_pos h2, KeysSorted, List.pairwise_cons]
        refine ⟨?_, ?_⟩
        · intro q hq
          rcases List.mem_cons.mp hq with h | h
          · rw [h]; exact h2
          · exact lt_trans h2 (hp q h)
        · rw [List.pairwise_cons]
          exact ⟨hp, hrest⟩
      · rw [if_neg h2, KeysSorted, List.pairwise_cons]
        have hk0k : k0 < k := lt_of_le_of_ne (not_lt.mp h2) fun h => h1 h.symm
        refine ⟨?_, ih hrest⟩
        intro q hq
        have hq1 : q.1 ∈ (bumpBT rest k f d).map Prod.fst :=
          List.mem_map_of_mem Prod.fst hq
        rcases (keys_bumpBT_mem rest k f d q.1).mp hq1 with h | h
        · rw [h]; exact hk0k
        · simp only [List.mem_map] at h
          obtain ⟨q0, hq0, hq0e⟩ := h
          rw [← hq0e]
          exact hp q0 hq0

theorem lookupAL_bumpBT (m : List (String × α)) (k : String) (f : α → α) (d : α)
    (a : String) (hm : KeysSorted m) :
    lookupAL (bumpBT m k f d) a =
      if a = k then some (f ((lookupAL m k).getD d)) else lookupAL m a := by
  induction m with
  | nil =>
    simp only [bumpBT, lookupAL]
    by_cases h : a = k
    · rw [if_pos (h ▸ rfl : k = a), if_pos h]
      simp
    · rw [if_neg fun hc => h hc.symm, if_neg h]
  | cons p rest ih =>
    obtain ⟨k0, v0⟩ := p
    rw [KeysSorted, List.pairwise_cons] at hm
    obtain ⟨hp, hrest⟩ := hm
    simp only [bumpBT]
    by_cases h1 : k = k0
    · rw [if_pos h1]
      simp only [lookupAL, if_pos h1.symm]
      by_cases h : a = k
      · have hk0a : k0 = a := by rw [← h1, h]
        rw [if_pos hk0a, if_pos h]
        simp
      · have hk0a : ¬k0 = a := fun hc => h (hc.symm.trans h1.symm)
        rw [if_neg hk0a, if_neg h, if_neg hk0a]
    · rw [if_neg h1]
      by_cases h2 : k < k0
      · have hnone : lookupAL ((k0, v0) :: rest) k = none := by
          apply (lookupAL_eq_none_iff _ _).mpr
          intro q hq
          rcases List.mem_cons.mp hq with h | h
          · rw [h]; exact fun hc => h1 hc.symm
          · exact ne_of_gt (lt_trans h2 (hp q h))
        rw [if_pos h2, hnone]
        simp only [lookupAL]
        by_cases h : a = k
        · rw [if_pos (h ▸ rfl : k = a), if_pos h]
          simp
        · rw [if_neg fun hc => h hc.symm, if_neg h]
      · rw [if_neg h2]
        have hk0k : ¬k0 = k := fun hc => h1 hc.symm
        simp only [lookupAL, if_neg hk0k, ih hrest]
        by_cases hk0a : k0 = a
        · have hak : ¬a = k := fun hc => h1 ((hk0a.trans hc).symm)
          simp [hk0a, hak]
        · by_cases h : a = k
          · simp [h, hk0a, hk0k]
          · simp [h, hk0a]

theorem keysSorted_eraseAL (m : List (String × α)) (k : String)
    (hm : KeysSorted m) : KeysSorted (eraseAL m k) :=
  List.Pairwise.sublist (eraseAL_sublist m k) hm

theorem lookupAL_eraseAL_self (m : List (String × α)) (k : String)
    (hm : KeysSorted m) : lookupAL (eraseAL m k) k = none := by
  induction m with
  | nil => simp [eraseAL, lookupAL]
  | cons p rest ih =>
    obtain ⟨k0, v0⟩ := p
    rw [KeysSorted, List.pairwise_cons] at hm
    obtain ⟨hp, hrest⟩ := hm
    simp only [eraseAL]
    by_cases hpk : k0 = k
    · rw [if_pos hpk]
      exact (lookupAL_eq_none_iff rest k).mpr fun q hq =>
        ne_of_gt (hpk ▸ hp q hq)
    · rw [if_neg hpk]
      simp only [lookupAL, if_neg hpk]
      exact ih hrest

theorem keysSorted_foldl_eraseAL (ks : List String) (m : List (String × α))
    (hm : KeysSorted m) :
    KeysSorted (ks.foldl (fun acc r => eraseAL acc r) m) := by
  induction ks generalizing m with
  | nil => exact hm
  | cons k rest ih => exact ih (eraseAL m k) (keysSorted_eraseAL m k hm)

theorem lookupAL_foldl_eraseAL (ks : List String) (m : List (String × α))
    (a : String) (hm : KeysSorted m) :
    lookupAL (ks.foldl (fun acc r => eraseAL acc r) m) a =
      if a ∈ ks then none else lookupAL m a := by
  induction ks generalizing m with
  | nil => simp
  | cons k rest ih =>
    simp only [List.foldl_cons]
    rw [ih (eraseAL m k) (keysSorted_eraseAL m k hm)]
    by_cases hr : a ∈ rest
    · simp [hr]
    · by_cases hk : a = k
      · subst hk
        simp [hr, lookupAL_eraseAL_self m a hm]
      · simp [hr, hk, lookupAL_eraseAL_ne m k a hk]

theorem keysSorted_foldl_bumpBT (f : String → α → α) (d : String → α)
    (l : List String) (m : List (String × α)) (hm : KeysSorted m) :
    KeysSorted (l.foldl (fun acc r => bumpBT acc r (f r) (d r)) m) := by
  induction l generalizing m with
  | nil => exact hm
  | cons k rest ih => exact ih _ (keysSorted_bumpBT m k (f k) (d k) hm)

theorem keys_foldl_bumpBT_mem (f : String → α → α) (d : String → α)
    (l : List String) (m : List (String × α)) (a : String) :
    a ∈ (l.foldl (fun acc r => bumpBT acc r (f r) (d r)) m).map Prod.fst ↔
      a ∈ l ∨ a ∈ m.map Prod.fst := by
  induction l generalizing m with
  | nil => simp
  | cons k rest ih =>
    simp only [List.foldl_cons, ih, keys_bumpBT_mem, List.mem_cons]
    tauto

theorem mem_insertIfAbsent (l : List String) (x a : String) :
    a ∈ insertIfAbsent l x ↔ a = x ∨ a ∈ l := by
  unfold insertIfAbsent
  by_cases h : l.contains x = true
  · have hx : x ∈ l := by simpa using h
    rw [if_pos h]
    constructor
    · exact Or.inr
    · rintro (rfl | ha)
      · exact hx
      · exact ha
  · rw [if_neg h, List.mem_append, List.mem_singleton]
    tauto

end BTLemmas


theorem contains_eq_true_of_mem {l : List String} {x : String} (h : x ∈ l) :
    l.contains x = true := by simpa using h

theorem contains_eq_false_of_not_mem {l : List String} {x : String}
    (h : ¬x ∈ l) : l.contains x = false := by simpa using h

theorem not_mem_of_contains_eq_false {l : List String} {x : String}
    (h : l.contains x = false) : ¬x ∈ l := by simpa using h

theorem eq_false_of_bnot_eq_true {b : Bool} (h : (!b) = true) : b = false := by
  cases b
  · rfl
  · exact absurd h (by decide)

section BTFold

variable {α : Type}

theorem lookupAL_foldl_bump_const (seed : String → α) (l : List String) :
    ∀ (m : List (String × α)), KeysSorted m → ∀ a,
      lookupAL
          (l.foldl
            (fun acc relay => bumpBT acc relay (fun _ => seed relay) (seed relay))
            m) a
        = if a ∈ l then some (seed a) else lookupAL m a := by
  induction l with
  | nil => intro m _ a; simp
  | cons k rest ih =>
    intro m hm a
    rw [List.foldl_cons,
      ih _ (keysSorted_bumpBT m k (fun _ => seed k) (seed k) hm) a,
      lookupAL_bumpBT m k (fun _ => seed k) (seed k) a hm]
    by_cases hr : a ∈ rest
    · simp [hr]
    · by_cases hk : a = k
      · subst hk
        simp [hr]
      · simp [hr, hk]

theorem lookupAL_foldl_bump_id (v : α) (l : List String) :
    ∀ (m : List (String × α)), KeysSorted m → ∀ a,
      lookupAL (l.foldl (fun acc r => bumpBT acc r id v) m) a
        = if a ∈ l then some ((lookupAL m a).getD v) else lookupAL m a := by
  induction l with
  | nil => intro m _ a; simp
  | cons k rest ih =>
    intro m hm a
    rw [List.foldl_cons, ih _ (keysSorted_bumpBT m k id v hm) a,
      lookupAL_bumpBT m k id v a hm]
    by_cases hr : a ∈ rest
    · rw [if_pos hr, if_pos (List.mem_cons_of_mem k hr)]
      by_cases hk : a = k
      · subst hk
        simp
      · rw [if_neg hk]
    · by_cases hk : a = k
      · subst hk
        simp [hr]
      · simp [hr, hk]

end BTFold

/-! ## Lemmas about chunking and request generation -/

theorem chunksMax_eq (l : List Nat) :
    chunksMax l =
      if l.isEmpty then []
      else l.take MAX_CHUNK_IDS :: chunksMax (l.drop MAX_CHUNK_IDS) := by
  rw [chunksMax]

theorem mem_chunksMax (l : List Nat) (c : List Nat) (hc : c ∈ chunksMax l) :
    c.length ≤ MAX_CHUNK_IDS ∧ c ≠ [] := by
  suffices h : ∀ n (l : List Nat), l.length ≤ n →
      ∀ c ∈ chunksMax l, c.length ≤ MAX_CHUNK_IDS ∧ c ≠ [] from
    h l.length l le_rfl c hc
  intro n
  induction n with
  | zero =>
    intro l hl c hc
    have hnil : l = [] := List.length_eq_zero.mp (Nat.le_zero.mp hl)
    subst hnil
    rw [chunksMax_eq] at hc
    simp at hc
  | succ n ih =>
    intro l hl c hc
    rw [chunksMax_eq] at hc
    by_cases hemp : l.isEmpty
    · rw [if_pos hemp] at hc
      simp at hc
    · rw [if_neg hemp] at hc
      have hne : l ≠ [] := by simpa [List.isEmpty_iff] using hemp
      rcases List.mem_cons.mp hc with h | h
    
      · subst h
        refine ⟨?_, ?_⟩
        · rw [List.length_take]
          exact Nat.min_le_left _ _
        · intro hcon
          rcases List.take_eq_nil_iff.mp hcon with h0 | h0
          · simp [MAX_CHUNK_IDS] at h0
          · exact hne h0
      · have hpos : 0 < l.length := List.length_pos.mpr hne
        have hlen : (l.drop MAX_CHUNK_IDS).length ≤ n := by
          rw [List.length_drop]
          simp only [MAX_CHUNK_IDS]
          omega
        exact ih _ hlen c h

theorem join_chunksMax (l : List Nat) : (chunksMax l).flatten = l := by
  suffices h : ∀ n (l : List Nat), l.length ≤ n → (chunksMax l).flatten = l from
    h l.length l le_rfl
  intro n
  induction n with
  | zero =>
    intro l hl
    have hnil : l = [] := List.length_eq_zero.mp (Nat.le_zero.mp hl)
    subst hnil
    rw [chunksMax_eq]
    simp
  | succ n ih =>
    intro l hl
    rw [chunksMax_eq]
    by_cases hemp : l.isEmpty
    · rw [if_pos hemp]
      simp [List.isEmpty_iff.mp hemp]
    · rw [if_neg hemp]
      have hne : l ≠ [] := by simpa [List.isEmpty_iff] using hemp
      have hpos : 0 < l.length := List.length_pos.mpr hne
      have hlen : (l.drop MAX_CHUNK_IDS).length ≤ n := by
        rw [List.length_drop]
        simp only [MAX_CHUNK_IDS]
        omega
      rw [List.flatten_cons, ih _ hlen, List.take_append_drop]

theorem foldl_append_pair {β γ : Type} (g h : β → List γ) (l : List β)
    (acc : List γ) :
    l.foldl (fun a x => a ++ g x ++ h x) acc =
      acc ++ (l.map fun x => g x ++ h x).flatten := by
  induction l generalizing acc with
  | nil => simp
  | cons x rest ih =>
    simp only [List.foldl_cons, List.map_cons, List.flatten_cons]
    rw [ih]
    simp [List.append_assoc]


theorem generate_resolution_requests_eq (u : UnknownIds) (genId : String) :
    u.generate_resolution_requests genId =
      ((idsByRelay u.ids).map fun p =>
        (chunksMax p.2.1).map (pkChunkSpec genId p.1)
          ++ (chunksMax p.2.2).map (nidChunkSpec genId p.1)).flatten := by
  unfold UnknownIds.generate_resolution_requests
  have h := foldl_append_pair
    (fun p : String × (List Nat × List Nat) =>
      (chunksMax p.2.1).map (pkChunkSpec genId p.1))
    (fun p : String × (List Nat × List Nat) =>
      (chunksMax p.2.2).map (nidChunkSpec genId p.1))
    (idsByRelay u.ids) []
  simpa using h

theorem mem_generate_resolution_requests (u : UnknownIds) (genId : String)
    (s : SubSpec) :
    s ∈ u.generate_resolution_requests genId ↔
      ∃ p ∈ idsByRelay u.ids,
        (∃ c ∈ chunksMax p.2.1, s = pkChunkSpec genId p.1 c)
          ∨ (∃ c ∈ chunksMax p.2.2, s = nidChunkSpec genId p.1 c) := by
  rw [generate_resolution_requests_eq]
  simp only [List.mem_flatten, List.mem_map]
  constructor
  · rintro ⟨chunkL, ⟨p, hp, rfl⟩, hs⟩
    refine ⟨p, hp, ?_⟩
    rcases List.mem_append.mp hs with h | h
    · rcases List.mem_map.mp h with ⟨c, hc, rfl⟩
      exact Or.inl ⟨c, hc, rfl⟩
    · rcases List.mem_map.mp h with ⟨c, hc, rfl⟩
      exact Or.inr ⟨c, hc, rfl⟩
  · rintro ⟨p, hp, h | h⟩
    · rcases h with ⟨c, hc, rfl⟩
      exact ⟨_, ⟨p, hp, rfl⟩, List.mem_append.mpr (Or.inl (List.mem_map_of_mem _ hc))⟩
    · rcases h with ⟨c, hc, rfl⟩
      exact ⟨_, ⟨p, hp, rfl⟩, List.mem_append.mpr (Or.inr (List.mem_map_of_mem _ hc))⟩

theorem keys_inner_fold (i : UnknownId) (l : List String)
    (m : List (String × (List Nat × List Nat))) (a : String) :
    a ∈ (l.foldl (fun m relay => bumpBT m relay (pushUnknown i) ([], [])) m).map
        Prod.fst ↔ a ∈ l ∨ a ∈ m.map Prod.fst := by
  induction l generalizing m with
  | nil => simp
  | cons r lrest lih =>
    simp only [List.foldl_cons, lih, keys_bumpBT_mem, List.mem_cons]
    tauto

theorem keys_idsByRelay (bag : List (UnknownId × List String)) (a : String) :
    a ∈ (idsByRelay bag).map Prod.fst ↔ ∃ p ∈ bag, a ∈ ("" :: p.2) := by
  suffices h : ∀ (bag : List (UnknownId × List String))
      (m : List (String × (List Nat × List Nat))),
      a ∈ (bag.foldl
        (fun m p => ("" :: p.2).foldl
          (fun m relay => bumpBT m relay (pushUnknown p.1) ([], [])) m) m).map Prod.fst
        ↔ (∃ p ∈ bag, a ∈ ("" :: p.2)) ∨ a ∈ m.map Prod.fst by
    rw [idsByRelay, h bag []]
    simp
  intro bag
  induction bag with
  | nil => simp
  | cons p rest ih =>
    intro m
    rw [List.foldl_cons, ih, keys_inner_fold]
    simp only [List.mem_cons]
    constructor
    · rintro (⟨q, hq, hqa⟩ | (h | h) | h)
      · exact Or.inl ⟨q, Or.inr hq, hqa⟩
      · exact Or.inl ⟨p, Or.inl rfl, Or.inl h⟩
      · exact Or.inl ⟨p, Or.inl rfl, Or.inr h⟩
      · exact Or.inr h
    · rintro (⟨q, (rfl | hq), hqa⟩ | h)
      · rcases hqa with h | h
        · exact Or.inr (Or.inl (Or.inl h))
        · exact Or.inr (Or.inl (Or.inr h))
      · exact Or.inl ⟨q, hq, hqa⟩
      · exact Or.inr (Or.inr h)


theorem pkChunkSpec_eq (genId relay : String) (c : List Nat) :
    pkChunkSpec genId relay c =
      { remote_id := genId
        filters := [{ authors := c, kinds := [0], ids := [] }]
        outbox_relays := []
        allowed_relays := if relay = "" then [] else [relay]
        blocked_relays := []
        is_oneshot := true
        is_onlylocal := false
        is_onlyremote := true } := by
  by_cases h : relay = ""
  · simp only [pkChunkSpec, resolutionBuilder, if_pos h]
    rfl
  · simp only [pkChunkSpec, resolutionBuilder, if_neg h]
    rfl

theorem nidChunkSpec_eq (genId relay : String) (c : List Nat) :
    nidChunkSpec genId relay c =
      { remote_id := genId
        filters := [{ authors := [], kinds := [], ids := c }]
        outbox_relays := []
        allowed_relays := if relay = "" then [] else [relay]
        blocked_relays := []
        is_oneshot := true
        is_onlylocal := false
        is_onlyremote := true } := by
  by_cases h : relay = ""
  · simp only [nidChunkSpec, resolutionBuilder, if_pos h]
    rfl
  · simp only [nidChunkSpec, resolutionBuilder, if_neg h]
    rfl

/-! ## Lemmas about the idle reaper's needed set -/

theorem mem_needed_base (ds : List RelaySpec) (acc : List String) (a : String) :
    a ∈ ds.foldl (fun acc rs => insertIfAbsent acc rs.url) acc ↔
      (∃ rs ∈ ds, rs.url = a) ∨ a ∈ acc := by
  induction ds generalizing acc with
  | nil => simp
  | cons rs rest ih =>
    simp only [List.foldl_cons, ih, mem_insertIfAbsent, List.mem_cons]
    constructor
    · rintro (⟨q, hq, hqa⟩ | h | h)
      · exact Or.inl ⟨q, Or.inr hq, hqa⟩
      · exact Or.inl ⟨rs, Or.inl rfl, h.symm⟩
      · exact Or.inr h
    · rintro (⟨q, (rfl | hq), hqa⟩ | h)
      · exact Or.inr (Or.inl hqa.symm)
      · exact Or.inl ⟨q, hq, hqa⟩
      · exact Or.inr (Or.inr h)

theorem mem_needed_inner (relays : List (String × RelaySubState))
    (acc : List String) (a : String) :
    a ∈ relays.foldl
        (fun acc q =>
          match q.2 with
          | .error _ => acc
          | .closed => acc
          | _ => insertIfAbsent acc q.1)
        acc ↔
      (∃ q ∈ relays, q.1 = a ∧ q.2 ≠ RelaySubState.closed ∧
          ∀ msg, q.2 ≠ RelaySubState.error msg) ∨ a ∈ acc := by
  induction relays generalizing acc with
  | nil => simp
  | cons q rest ih =>
    obtain ⟨url, s⟩ := q
    cases s with
    | pending =>
      simp only [List.foldl_cons, ih, mem_insertIfAbsent, List.mem_cons]
      constructor
      · rintro (⟨q, hq, hqa⟩ | h | h)
        · exact Or.inl ⟨q, Or.inr hq, hqa⟩
        · exact Or.inl ⟨(url, .pending), Or.inl rfl, h.symm, by simp, by simp⟩
        · exact Or.inr h
      · rintro (⟨q, (rfl | hq), hqa⟩ | h)
        · exact Or.inr (Or.inl hqa.1.symm)
        · exact Or.inl ⟨q, hq, hqa⟩
        · exact Or.inr (Or.inr h)
    | syncing =>
      simp only [List.foldl_cons, ih, mem_insertIfAbsent, List.mem_cons]
      constructor
      · rintro (⟨q, hq, hqa⟩ | h | h)
        · exact Or.inl ⟨q, Or.inr hq, hqa⟩
        · exact Or.inl ⟨(url, .syncing), Or.inl rfl, h.symm, by simp, by simp⟩
        · exact Or.inr h
      · rintro (⟨q, (rfl | hq), hqa⟩ | h)
        · exact Or.inr (Or.inl hqa.1.symm)
        · exact Or.inl ⟨q, hq, hqa⟩
        · exact Or.inr (Or.inr h)
    | current =>
      simp only [List.foldl_cons, ih, mem_insertIfAbsent, List.mem_cons]
      constructor
      · rintro (⟨q, hq, hqa⟩ | h | h)
        · exact Or.inl ⟨q, Or.inr hq, hqa⟩
        · exact Or.inl ⟨(url, .current), Or.inl rfl, h.symm, by simp, by simp⟩
        · exact Or.inr h
      · rintro (⟨q, (rfl | hq), hqa⟩ | h)
        · exact Or.inr (Or.inl hqa.1.symm)
        · exact Or.inl ⟨q, hq, hqa⟩
        · exact Or.inr (Or.inr h)
    | error msg =>
      simp only [List.foldl_cons, ih, List.mem_cons]
      constructor
      · rintro (⟨q, hq, hqa⟩ | h)
        · exact Or.inl ⟨q, Or.inr hq, hqa⟩
        · exact Or.inr h
      · rintro (⟨q, (rfl | hq), hqa⟩ | h)
        · exact absurd rfl (hqa.2.2 msg)
        · exact Or.inl ⟨q, hq, hqa⟩
        · exact Or.inr h
    | closed =>
      simp only [List.foldl_cons, ih, List.mem_cons]
      constructor
      · rintro (⟨q, hq, hqa⟩ | h)
        · exact Or.inl ⟨q, Or.inr hq, hqa⟩
        · exact Or.inr h
      · rintro (⟨q, (rfl | hq), hqa⟩ | h)
        · exact absurd rfl hqa.2.1
        · exact Or.inl ⟨q, hq, hqa⟩
        · exact Or.inr h

theorem mem_needed_relays (m : SubMan) (default_relays : List RelaySpec)
    (a : String) :
    a ∈ m.needed_relays default_relays ↔
      (∃ rs ∈ default_relays, rs.url = a) ∨
        (∃ p ∈ m.remoteIdx, ∃ rsub, p.2.remoteSt = some rsub ∧
          ∃ q ∈ rsub.relays, q.1 = a ∧ q.2 ≠ RelaySubState.closed ∧
            ∀ msg, q.2 ≠ RelaySubState.error msg) := by
  unfold SubMan.needed_relays
  suffices h : ∀ (idx : List (String × SubState)) (acc : List String),
      a ∈ idx.foldl
          (fun acc p =>
            match p.2.remoteSt with
            | none => acc
            | some rsub =>
              rsub.relays.foldl
                (fun acc q =>
                  match q.2 with
                  | .error _ => acc
                  | .closed => acc
                  | _ => insertIfAbsent acc q.1)
                acc)
          acc ↔
        (∃ p ∈ idx, ∃ rsub, p.2.remoteSt = some rsub ∧
          ∃ q ∈ rsub.relays, q.1 = a ∧ q.2 ≠ RelaySubState.closed ∧
            ∀ msg, q.2 ≠ RelaySubState.error msg) ∨ a ∈ acc by
    rw [h]
    rw [mem_needed_base]
    simp only [List.not_mem_nil, or_false]
    exact or_comm
  intro idx
  induction idx with
  | nil => simp
  | cons p rest ih =>
    intro acc
    rcases hrem : p.2.remoteSt with _ | rsub
    · simp only [List.foldl_cons, hrem]
      rw [ih]
      simp only [List.mem_cons]
      constructor
      · rintro (⟨q, hq, hrest⟩ | h)
        · exact Or.inl ⟨q, Or.inr hq, hrest⟩
        · exact Or.inr h
      · rintro (⟨q, (rfl | hq), rsub0, hr0, hrest⟩ | h)
        · rw [hrem] at hr0
          exact absurd hr0 (by simp)
        · exact Or.inl ⟨q, hq, rsub0, hr0, hrest⟩
        · exact Or.inr h
    · simp only [List.foldl_cons, hrem]
      rw [ih, mem_needed_inner]
      simp only [List.mem_cons]
      constructor
      · rintro (⟨q, hq, hrest⟩ | h | h)
        · exact Or.inl ⟨q, Or.inr hq, hrest⟩
        · rcases h with ⟨q, hq, hrest⟩
          exact Or.inl ⟨p, Or.inl rfl, rsub, hrem, q, hq, hrest⟩
        · exact Or.inr h
      · rintro (⟨q, (rfl | hq), rsub0, hr0, hrest⟩ | h)
        · rw [hrem] at hr0
          have : rsub0 = rsub := by
            injection hr0.symm
          subst this
          exact Or.inr (Or.inl hrest)
        · exact Or.inl ⟨q, hq, rsub0, hr0, hrest⟩
        · exact Or.inr (Or.inr h)


/-! ## Claim theorems -/

/-- C2: `consider_finished` returns true iff no relay entry is in state
`Syncing` and `is_oneshot` is true; it attempts the end-signal send exactly
when it returns true, and returns false without sending whenever some relay
is still `Syncing` or `is_oneshot` is false. -/
theorem claim_c2 (rs : RemoteSubState) (is_oneshot : Bool) :
    rs.consider_finished is_oneshot =
      { finished := decide (∀ q ∈ rs.relays, q.2 ≠ RelaySubState.syncing) && is_oneshot
        sentEnd := decide (∀ q ∈ rs.relays, q.2 ≠ RelaySubState.syncing) && is_oneshot } := by
  unfold RemoteSubState.consider_finished
  have hiff : (rs.relays.filter fun p => decide (p.2 = RelaySubState.syncing)).isEmpty
      = true ↔ ∀ q ∈ rs.relays, q.2 ≠ RelaySubState.syncing := by
    rw [List.isEmpty_iff, List.filter_eq_nil_iff]
    simp
  by_cases h : ∀ q ∈ rs.relays, q.2 ≠ RelaySubState.syncing
  · rw [if_pos (hiff.mpr h)]
    cases is_oneshot <;> simp [h] <;>
      exact fun x b hxb => h (x, b) hxb
  · rw [if_neg fun hc => h (hiff.mp hc)]
    simp only [ConsiderResult.mk.injEq]
    have hd : decide (∀ q ∈ rs.relays, q.2 ≠ RelaySubState.syncing) = false :=
      decide_eq_false h
    rw [hd]
    simp

/-- C9: a `SubReceiver` with a remote part but no local part (prefetch) never
resolves `next` with a batch of note keys: whether the end-signal channel
yields (`some`) or closes (`none`), every call returns `StreamEnded`. -/
theorem claim_c9 (r : SubReceiver) (localOut : Option (List Nat))
    (localWins : Bool) (remoteOut : Option Unit)
    (hl : r.localsub = none) (hr : r.remotesub.isSome = true) :
    r.next localOut localWins remoteOut = .error .streamEnded := by
  obtain ⟨ls, rsub⟩ := r
  simp only at hl
  subst hl
  cases rsub with
  | none => simp at hr
  | some rid => cases remoteOut <;> rfl

/-- C9 witness. -/
theorem claim_c9_witness :
    SubReceiver.next ⟨none, some "rid"⟩ (some [1]) true none
      = .error .streamEnded :=
  claim_c9 ⟨none, some "rid"⟩ (some [1]) true none rfl rfl

/-- C10: `poll` on a receiver without a local part hits the
`assert!(self.localsub.is_some())` (reified as the `none` outcome) rather
than returning a batch; `poll` returning normally requires a local part. -/
theorem claim_c10 :
    (∀ (r : SubReceiver) (pollNotes : Nat → List Nat), r.localsub = none →
        r.poll pollNotes = none) ∧
    (∀ (r : SubReceiver) (pollNotes : Nat → List Nat) (out : List Nat),
        r.poll pollNotes = some out → r.localsub.isSome = true) := by
  constructor
  · intro r pollNotes hl
    unfold SubReceiver.poll
    rw [hl]
  · intro r pollNotes out h
    unfold SubReceiver.poll at h
    cases hls : r.localsub with
    | none => rw [hls] at h; exact absurd h (by simp)
    | some lid => simp [hls]

/-- C10 witness. -/
theorem claim_c10_witness :
    SubReceiver.poll ⟨none, some "rid"⟩ (fun _ => [1]) = none :=
  claim_c10.1 ⟨none, some "rid"⟩ (fun _ => [1]) rfl

/-- C7 counterexample: the claim says `ready_to_send` fires again immediately
after `clear` followed by a new insertion; in the code `clear` does not reset
the timestamps, so with a first update at t=0, a clear, and a new insertion
at t=5, the bag is non-empty yet `ready_to_send` at t=5 is false. -/
theorem claim_c7_counterexample :
    ((((UnknownIds.add_if_missing {} (.pubkey 1) 0).clear).add_if_missing
        (.pubkey 2) 5).ready_to_send 5) = false ∧
    ((((UnknownIds.add_if_missing {} (.pubkey 1) 0).clear).add_if_missing
        (.pubkey 2) 5).ids ≠ []) := by
  constructor
  · rfl
  · simp [UnknownIds.add_if_missing, UnknownIds.clear, UnknownIds.mark_updated,
      lookupAL]

/-- C7 (amended): `ready_to_send` is true iff the bag is non-empty and either
`first_updated = last_updated` — the edge-trigger, which marks the first
update ever, not the first update since `clear`, because `clear` keeps both
timestamps — or `last_updated` is unset, or at least 2 seconds have elapsed
since the last update.  After `clear` followed by a new insertion the
debounce applies as usual. -/
theorem claim_c7_amended (u : UnknownIds) (now : Nat) :
    (u.ready_to_send now = true ↔
      u.ids ≠ [] ∧ (u.first_updated = u.last_updated ∨ u.last_updated = none ∨
        ∃ t, u.last_updated = some t ∧ 2 ≤ now - t)) ∧
    u.clear.first_updated = u.first_updated ∧
    u.clear.last_updated = u.last_updated := by
  refine ⟨?_, rfl, rfl⟩
  unfold UnknownIds.ready_to_send
  by_cases hempty : u.ids.isEmpty
  · rw [if_pos hempty]
    simp [List.isEmpty_iff.mp hempty]
  · rw [if_neg hempty]
    have hne : u.ids ≠ [] := fun hc => hempty (by simp [hc])
    by_cases hfl : u.first_updated = u.last_updated
    · simp [hfl, hne]
    · rw [if_neg hfl]
      cases hlast : u.last_updated with
      | none => simp [hne, hfl, hlast]
      | some t =>
        rw [hlast] at hfl
        simp [hne, hfl, hlast]

/-- C8 counterexample: with accounts `[10, 20, 30]` and index 0 selected,
`remove_account 0` keeps the selection at index 0 (the account `20` at the
same position), not at the last index 1 as the claim requires. -/
theorem claim_c8_counterexample :
    (Accounts.remove_account ⟨[10, 20, 30], some 0, [10, 20, 30]⟩
        0).currently_selected_account = some 0 ∧
    (Accounts.remove_account ⟨[10, 20, 30], some 0, [10, 20, 30]⟩
        0).accounts = [20, 30] ∧
    ¬(Accounts.remove_account ⟨[10, 20, 30], some 0, [10, 20, 30]⟩
        0).currently_selected_account =
      some ((Accounts.remove_account ⟨[10, 20, 30], some 0, [10, 20, 30]⟩
        0).accounts.length - 1) := by
  decide

/-- C8 (amended): `remove_account i` removes the account from storage and the
list; if the removed index was less than the selected index the selection is
decremented; if greater, unchanged; if equal, the selection is cleared when
the list becomes empty, moved to the new last account when the removed index
was the last, and otherwise kept at the same index (now the successor
account). -/
theorem claim_c8_amended (a : Accounts) (i : Nat) (hi : i < a.accounts.length)
    (hsel : ∀ s, a.currently_selected_account = some s → s < a.accounts.length) :
    (a.remove_account i).accounts = a.accounts.eraseIdx i ∧
    (a.remove_account i).storage = a.storage.erase (a.accounts.get ⟨i, hi⟩) ∧
    (a.remove_account i).currently_selected_account =
      match a.currently_selected_account with
      | none => none
      | some s =>
        if i < s then some (s - 1)
        else if s = i then
          if a.accounts.length ≤ 1 then none
          else if i = a.accounts.length - 1 then some (a.accounts.length - 2)
          else some i
        else some s := by
  have hlen : (a.accounts.eraseIdx i).length = a.accounts.length - 1 := by
    rw [List.length_eraseIdx]
    simp [hi]
  rcases hs : a.currently_selected_account with _ | s
  · have key : a.remove_account i =
        { accounts := a.accounts.eraseIdx i
          currently_selected_account := none
          storage := a.storage.erase (a.accounts.get ⟨i, hi⟩) } := by
      unfold Accounts.remove_account
      rw [List.get?_eq_get hi]
      dsimp only
      rw [hs]
    rw [key]
    exact ⟨rfl, rfl, rfl⟩
  · have hslen : s < a.accounts.length := hsel s hs
    by_cases hgt : s > i
    · have hr : s - 1 < (a.accounts.eraseIdx i).length := by omega
      have key : a.remove_account i =
          { accounts := a.accounts.eraseIdx i
            currently_selected_account := some (s - 1)
            storage := a.storage.erase (a.accounts.get ⟨i, hi⟩) } := by
        unfold Accounts.remove_account Accounts.select_account
        rw [List.get?_eq_get hi]
        dsimp only
        rw [hs]
        dsimp only
        rw [if_pos hgt, List.get?_eq_get hr]
      rw [key]
      refine ⟨rfl, rfl, ?_⟩
      dsimp only
      rw [if_pos hgt]
    · by_cases heq : s = i
      · subst heq
        by_cases h1 : a.accounts.length ≤ 1
        · have hempt : (a.accounts.eraseIdx s).isEmpty = true := by
            rw [List.isEmpty_iff, ← List.length_eq_zero, hlen]
            omega
          have key : a.remove_account s =
              { accounts := a.accounts.eraseIdx s
                currently_selected_account := none
                storage := a.storage.erase (a.accounts.get ⟨s, hi⟩) } := by
            unfold Accounts.remove_account Accounts.clear_selected_account
            rw [List.get?_eq_get hi]
            dsimp only
            rw [hs]
            dsimp only
            rw [if_neg hgt, if_pos rfl, if_pos hempt]
          rw [key]
          refine ⟨rfl, rfl, ?_⟩
          dsimp only
          rw [if_neg hgt, if_pos rfl, if_pos h1]
        · have hempt : ¬(a.accounts.eraseIdx s).isEmpty = true := by
            rw [List.isEmpty_iff, ← List.length_eq_zero, hlen]
            omega
          by_cases h2 : s = a.accounts.length - 1
          · have hge : s ≥ (a.accounts.eraseIdx s).length := by omega
            have hr : (a.accounts.eraseIdx s).length - 1
                < (a.accounts.eraseIdx s).length := by omega
            have hval : (a.accounts.eraseIdx s).length - 1
                = a.accounts.length - 2 := by omega
            have key : a.remove_account s =
                { accounts := a.accounts.eraseIdx s
                  currently_selected_account := some (a.accounts.length - 2)
                  storage := a.storage.erase (a.accounts.get ⟨s, hi⟩) } := by
              unfold Accounts.remove_account Accounts.select_account
              rw [List.get?_eq_get hi]
              dsimp only
              rw [hs]
              dsimp only
              rw [if_neg hgt, if_pos rfl, if_neg hempt, if_pos hge,
                List.get?_eq_get hr]
              dsimp only
              rw [hval]
            rw [key]
            refine ⟨rfl, rfl, ?_⟩
            dsimp only
            rw [if_neg hgt, if_pos rfl, if_neg h1, if_pos h2]
          · have hnge : ¬s ≥ (a.accounts.eraseIdx s).length := by omega
            have hr : s < (a.accounts.eraseIdx s).length := by omega
            have key : a.remove_account s =
                { accounts := a.accounts.eraseIdx s
                  currently_selected_account := some s
                  storage := a.storage.erase (a.accounts.get ⟨s, hi⟩) } := by
              unfold Accounts.remove_account Accounts.select_account
              rw [List.get?_eq_get hi]
              dsimp only
              rw [hs]
              dsimp only
              rw [if_neg hgt, if_pos rfl, if_neg hempt, if_neg hnge,
                List.get?_eq_get hr]
            rw [key]
            refine ⟨rfl, rfl, ?_⟩
            dsimp only
            rw [if_neg hgt, if_pos rfl, if_neg h1, if_neg h2]
      · have key : a.remove_account i =
            { accounts := a.accounts.eraseIdx i
              currently_selected_account := some s
              storage := a.storage.erase (a.accounts.get ⟨i, hi⟩) } := by
          unfold Accounts.remove_account
          rw [List.get?_eq_get hi]
          dsimp only
          rw [hs]
          dsimp only
          rw [if_neg hgt, if_neg heq]
        rw [key]
        refine ⟨rfl, rfl, ?_⟩
        dsimp only
        rw [if_neg hgt, if_neg heq]


/-- C1 counterexample: for the SubSpec with both `is_onlylocal` and
`is_onlyremote` set, `subscribe` on an empty SubMan does not reject: it
returns `Ok` with a receiver (one with neither part), even when the local
store oracle would fail. -/
theorem claim_c1_counterexample :
    SubMan.subscribe ⟨[], [], [], []⟩
        ⟨"rid", [], [], [], [], false, true, true⟩ [] (fun _ => false)
        (.error "ndb down")
      = .ok (⟨[], [], [], []⟩, ⟨none, none⟩) := rfl

/-- C1 (amended): `subscribe` accepts a spec with both `is_onlylocal` and
`is_onlyremote` set: for every SubMan state and every oracle it returns `Ok`
with a receiver that has neither a local nor a remote part, leaving both
indexes unchanged; the internal error surfaces only when `next` is called on
that receiver. -/
theorem claim_c1_amended (m : SubMan) (spec : SubSpec)
    (defaults : List RelaySpec) (sendOk : String → Bool)
    (ndbSub : Except String Nat)
    (hl : spec.is_onlylocal = true) (hr : spec.is_onlyremote = true) :
    SubMan.subscribe m spec defaults sendOk ndbSub = .ok (m, ⟨none, none⟩) ∧
    (∀ (localOut : Option (List Nat)) (localWins : Bool)
        (remoteOut : Option Unit),
      SubReceiver.next ⟨none, none⟩ localOut localWins remoteOut
        = .error (.internalError "unimplmented")) := by
  refine ⟨?_, fun _ _ _ => rfl⟩
  unfold SubMan.subscribe SubMan.make_subscription
  rw [hr, hl]
  rfl

/-- C1 amended witness. -/
theorem claim_c1_amended_witness :
    SubMan.subscribe ⟨[], [], [], []⟩
        ⟨"rid", [], [], [], [], false, true, true⟩ [] (fun _ => true) (.ok 7)
      = .ok (⟨[], [], [], []⟩, ⟨none, none⟩) :=
  (claim_c1_amended ⟨[], [], [], []⟩ ⟨"rid", [], [], [], [], false, true, true⟩
    [] (fun _ => true) (.ok 7) rfl rfl).1

/-- C4: for a spec without `is_onlylocal`, `make_subscription` builds the
remote relay map over exactly `allowed_relays` when non-empty, otherwise over
the readable subset of the default relays, and seeds each chosen relay
`Error("blocked")` when blocked, `Syncing` when the immediate REQ send
succeeds, and `Pending` otherwise. -/
theorem claim_c4 (spec : SubSpec) (defaults : List RelaySpec)
    (sendOk : String → Bool) (ndbSub : Except String Nat)
    (hol : spec.is_onlylocal = false) (ss : SubState) (r : SubReceiver)
    (hmk : SubMan.make_subscription spec defaults sendOk ndbSub = .ok (ss, r)) :
    ∃ rsub, ss.remoteSt = some rsub ∧ rsub.remote_id = spec.remote_id ∧
      ∀ url, lookupAL rsub.relays url =
        if (if spec.allowed_relays.isEmpty then
              (defaults.filter fun rs => rs.is_readable).map fun rs => rs.url
            else spec.allowed_relays).contains url
        then some
          (if spec.blocked_relays.contains url then RelaySubState.error "blocked"
           else if sendOk url then RelaySubState.syncing
           else RelaySubState.pending)
        else none := by
  have hlook : ∀ (relays : List String),
      ∀ url, lookupAL
          (relays.foldl
            (fun m relay =>
              let rss :=
                if spec.blocked_relays.contains relay then RelaySubState.error "blocked"
                else if sendOk relay then RelaySubState.syncing
                else RelaySubState.pending
              bumpBT m relay (fun _ => rss) rss)
            []) url
        = if relays.contains url
          then some
            (if spec.blocked_relays.contains url then RelaySubState.error "blocked"
             else if sendOk url then RelaySubState.syncing
             else RelaySubState.pending)
          else none := by
    intro relays url
    have hshape :
        relays.foldl
          (fun m relay =>
            let rss :=
              if spec.blocked_relays.contains relay then RelaySubState.error "blocked"
              else if sendOk relay then RelaySubState.syncing
              else RelaySubState.pending
            bumpBT m relay (fun _ => rss) rss)
          []
        = relays.foldl
            (fun m relay =>
              bumpBT m relay
                (fun _ =>
                  if spec.blocked_relays.contains relay then RelaySubState.error "blocked"
                  else if sendOk relay then RelaySubState.syncing
                  else RelaySubState.pending)
                (if spec.blocked_relays.contains relay then RelaySubState.error "blocked"
                 else if sendOk relay then RelaySubState.syncing
                 else RelaySubState.pending))
            [] := rfl
    rw [hshape,
      lookupAL_foldl_bump_const
        (fun relay =>
          if spec.blocked_relays.contains relay then RelaySubState.error "blocked"
          else if sendOk relay then RelaySubState.syncing
          else RelaySubState.pending)
        relays [] (by simp [KeysSorted]) url]
    by_cases hu : url ∈ relays
    · rw [if_pos hu]
      have hc : relays.contains url = true := by simpa using hu
      rw [hc]
      simp
    · rw [if_neg hu]
      have hc : relays.contains url = false := by simpa using hu
      rw [hc]
      simp [lookupAL]
  unfold SubMan.make_subscription at hmk
  rw [hol] at hmk
  cases hrem : spec.is_onlyremote with
  | true =>
    rw [hrem] at hmk
    simp only [if_true, Bool.false_eq_true, if_false] at hmk
    rw [Except.ok.injEq, Prod.mk.injEq] at hmk
    obtain ⟨hss, -⟩ := hmk
    subst hss
    exact ⟨_, rfl, rfl, hlook _⟩
  | false =>
    rw [hrem] at hmk
    simp only [Bool.false_eq_true, if_false] at hmk
    cases ndbSub with
    | error e => simp at hmk
    | ok lid =>
      simp only [] at hmk
      rw [Except.ok.injEq, Prod.mk.injEq] at hmk
      obtain ⟨hss, -⟩ := hmk
      subst hss
      exact ⟨_, rfl, rfl, hlook _⟩

/-- C4 witness. -/
theorem claim_c4_witness :
    ∃ rsub,
      (SubState.mk
          ⟨"rid", [], [], ["wss://a"], [], false, false, false⟩
          (some ⟨1⟩)
          (some ⟨"rid", [("wss://a", RelaySubState.syncing)]⟩)).remoteSt
        = some rsub ∧
      rsub.remote_id = "rid" ∧
      lookupAL rsub.relays "wss://a" = some RelaySubState.syncing := by
  obtain ⟨rsub, h1, h2, h3⟩ :=
    claim_c4 ⟨"rid", [], [], ["wss://a"], [], false, false, false⟩ []
      (fun _ => true) (.ok 1) rfl
      (SubState.mk
        ⟨"rid", [], [], ["wss://a"], [], false, false, false⟩
        (some ⟨1⟩)
        (some ⟨"rid", [("wss://a", RelaySubState.syncing)]⟩))
      ⟨some 1, some "rid"⟩ rfl
  exact ⟨rsub, h1, h2, (h3 "wss://a").trans (by decide)⟩


/-- C3: for a state created by `subscribe` under fresh ids, a first
unsubscribe (by local id or by remote id) removes the state from both the
`LocalId` index and the `RemoteId` index (restoring the previous SubMan
state), and a second call with the same id returns the internal error
reporting that the substate was not found. -/
theorem claim_c3 (m : SubMan) (spec : SubSpec) (defaults : List RelaySpec)
    (sendOk : String → Bool) (lid : Nat)
    (hlf : lookupAL m.localIdx lid = none)
    (hrf : lookupAL m.remoteIdx spec.remote_id = none) :
    ∀ m1 r, SubMan.subscribe m spec defaults sendOk (.ok lid) = .ok (m1, r) →
      (∀ l0, r.localsub = some l0 →
        SubMan.unsubscribe_local_id m1 l0 = .ok m ∧
        lookupAL m.localIdx l0 = none ∧
        lookupAL m.remoteIdx spec.remote_id = none ∧
        SubMan.unsubscribe_local_id m l0
          = .err ("substate for " ++ toString l0 ++ " not found")) ∧
      (∀ rid, r.remotesub = some rid →
        SubMan.unsubscribe_remote_id m1 rid = .ok m ∧
        lookupAL m.remoteIdx rid = none ∧
        (∀ l0, r.localsub = some l0 → lookupAL m.localIdx l0 = none) ∧
        SubMan.unsubscribe_remote_id m rid
          = .err ("substate for " ++ rid ++ " not found")) := by
  obtain ⟨mloc, mrem, midle, mpool⟩ := m
  simp only at hlf hrf
  intro m1 r hsub
  unfold SubMan.subscribe SubMan.make_subscription at hsub
  cases hrem : spec.is_onlyremote with
  | true =>
    rw [hrem] at hsub
    cases holo : spec.is_onlylocal with
    | true =>
      rw [holo] at hsub
      simp only [if_true, Option.map_some', Option.map_none'] at hsub
      rw [Except.ok.injEq, Prod.mk.injEq] at hsub
      obtain ⟨hm1, hr⟩ := hsub
      subst hm1
      subst hr
      constructor
      · intro l0 hl0
        exact absurd hl0 (by simp)
      · intro rid hrid
        exact absurd hrid (by simp)
    | false =>
      rw [holo] at hsub
      simp only [if_true, Bool.false_eq_true, if_false, Option.map_some', Option.map_none'] at hsub
      rw [Except.ok.injEq, Prod.mk.injEq] at hsub
      obtain ⟨hm1, hr⟩ := hsub
      subst hm1
      subst hr
      constructor
      · intro l0 hl0
        exact absurd hl0 (by simp)
      · intro rid hrid
        simp only [Option.some.injEq] at hrid
        subst hrid
        refine ⟨?_, hrf, ?_, ?_⟩
        · simp only [SubMan.unsubscribe_remote_id, SubMan.unsubscribe_substate,
            lookupAL_insertAL, eq_self_iff_true, if_true,
            eraseAL_insertAL_of_none _ _ _ hrf]
        · intro l0 hl0
          exact absurd hl0 (by simp)
        · simp only [SubMan.unsubscribe_remote_id, hrf]
  | false =>
    rw [hrem] at hsub
    cases holo : spec.is_onlylocal with
    | true =>
      rw [holo] at hsub
      simp only [if_true, Bool.false_eq_true, if_false, Option.map_some', Option.map_none'] at hsub
      rw [Except.ok.injEq, Prod.mk.injEq] at hsub
      obtain ⟨hm1, hr⟩ := hsub
      subst hm1
      subst hr
      constructor
      · intro l0 hl0
        simp only [Option.some.injEq] at hl0
        subst hl0
        refine ⟨?_, hlf, hrf, ?_⟩
        · simp only [SubMan.unsubscribe_local_id, SubMan.unsubscribe_substate,
            lookupAL_insertAL, eq_self_iff_true, if_true,
            eraseAL_insertAL_of_none _ _ _ hlf]
        · simp only [SubMan.unsubscribe_local_id, hlf]
      · intro rid hrid
        exact absurd hrid (by simp)
    | false =>
      rw [holo] at hsub
      simp only [Bool.false_eq_true, if_false, Option.map_some', Option.map_none'] at hsub
      rw [Except.ok.injEq, Prod.mk.injEq] at hsub
      obtain ⟨hm1, hr⟩ := hsub
      subst hm1
      subst hr
      constructor
      · intro l0 hl0
        simp only [Option.some.injEq] at hl0
        subst hl0
        refine ⟨?_, hlf, hrf, ?_⟩
        · simp only [SubMan.unsubscribe_local_id, SubMan.unsubscribe_substate,
            lookupAL_insertAL, eq_self_iff_true, if_true,
            eraseAL_insertAL_of_none _ _ _ hrf,
            eraseAL_insertAL_of_none _ _ _ hlf]
        · simp only [SubMan.unsubscribe_local_id, hlf]
      · intro rid hrid
        simp only [Option.some.injEq] at hrid
        subst hrid
        refine ⟨?_, hrf, ?_, ?_⟩
        · simp only [SubMan.unsubscribe_remote_id, SubMan.unsubscribe_substate,
            lookupAL_insertAL, eq_self_iff_true, if_true,
            eraseAL_insertAL_of_none _ _ _ hrf,
            eraseAL_insertAL_of_none _ _ _ hlf]
        · intro l0 hl0
          simp only [Option.some.injEq] at hl0
          subst hl0
          exact hlf
        · simp only [SubMan.unsubscribe_remote_id, hrf]


/-- C3 witness. -/
theorem claim_c3_witness :
    SubMan.unsubscribe_local_id
        ⟨[(1, ⟨⟨"rid", [], [], [], [], false, false, false⟩, some ⟨1⟩,
            some ⟨"rid", []⟩⟩)],
         [("rid", ⟨⟨"rid", [], [], [], [], false, false, false⟩, some ⟨1⟩,
            some ⟨"rid", []⟩⟩)], [], []⟩ 1
      = .ok ⟨[], [], [], []⟩ ∧
    SubMan.unsubscribe_local_id ⟨[], [], [], []⟩ 1
      = .err "substate for 1 not found" := by
  have h := claim_c3 ⟨[], [], [], []⟩ ⟨"rid", [], [], [], [], false, false, false⟩
    [] (fun _ => true) 1 rfl rfl
    ⟨[(1, ⟨⟨"rid", [], [], [], [], false, false, false⟩, some ⟨1⟩,
        some ⟨"rid", []⟩⟩)],
     [("rid", ⟨⟨"rid", [], [], [], [], false, false, false⟩, some ⟨1⟩,
        some ⟨"rid", []⟩⟩)], [], []⟩
    ⟨some 1, some "rid"⟩ rfl
  have h1 := h.1 1 rfl
  exact ⟨h1.1, h1.2.2.2⟩


/-- C5 counterexample: the claim removes a URL idle for at least 20 seconds;
the code reaps only after strictly more than 20 seconds
(`now.duration_since(entry) > IDLE_EXPIRATION_SECS`).  With an idle entry at
t=0 and a sweep at t=20 (exactly 20 seconds idle, and the URL is unneeded),
the URL is still in the pool. -/
theorem claim_c5_counterexample :
    (SubMan.close_unneeded_relays ⟨[], [], [("wss://b", 0)], ["wss://b"]⟩ []
        20).pool = ["wss://b"] ∧
    ¬"wss://b" ∈ SubMan.needed_relays ⟨[], [], [("wss://b", 0)], ["wss://b"]⟩ [] := by
  constructor
  · rfl
  · decide

/-- C5 (amended): for one sweep of `close_unneeded_relays` at time `now`
(with a well-formed idle `BTreeMap`): the needed set is exactly the default
relay URLs plus the relays of any remote-indexed substate in a non-terminal
`RelaySubState`; a pooled URL outside the needed set with no idle entry
enters the idle map at this sweep with timestamp `now` and is not yet reaped;
a pooled URL outside the needed set whose idle entry is STRICTLY MORE than 20
seconds old is removed from the pool and from the idle map; a URL in the
needed set is removed from the idle map without being reaped. -/
theorem claim_c5_amended (m : SubMan) (defaults : List RelaySpec) (now : Nat)
    (hs : KeysSorted m.idle) :
    (∀ a, a ∈ m.needed_relays defaults ↔
      (∃ rs ∈ defaults, rs.url = a) ∨
        (∃ p ∈ m.remoteIdx, ∃ rsub, p.2.remoteSt = some rsub ∧
          ∃ q ∈ rsub.relays, q.1 = a ∧ q.2 ≠ RelaySubState.closed ∧
            ∀ msg, q.2 ≠ RelaySubState.error msg)) ∧
    (∀ r, r ∈ m.pool → ¬r ∈ m.needed_relays defaults →
      lookupAL m.idle r = none →
        lookupAL (m.close_unneeded_relays defaults now).idle r = some now ∧
        r ∈ (m.close_unneeded_relays defaults now).pool) ∧
    (∀ r t, r ∈ m.pool → ¬r ∈ m.needed_relays defaults →
      lookupAL m.idle r = some t → now - t > 20 →
        ¬r ∈ (m.close_unneeded_relays defaults now).pool ∧
        lookupAL (m.close_unneeded_relays defaults now).idle r = none) ∧
    (∀ r, r ∈ m.needed_relays defaults →
      lookupAL (m.close_unneeded_relays defaults now).idle r = none ∧
        (r ∈ (m.close_unneeded_relays defaults now).pool ↔ r ∈ m.pool)) := by
  have hs1 : KeysSorted ((m.needed_relays defaults).foldl (fun acc r => eraseAL acc r) m.idle) := keysSorted_foldl_eraseAL _ _ hs
  have hs2 : KeysSorted ((m.pool.filter fun r => !((m.needed_relays defaults).contains r)).foldl (fun acc r => bumpBT acc r id now) ((m.needed_relays defaults).foldl (fun acc r => eraseAL acc r) m.idle)) :=
    keysSorted_foldl_bumpBT (fun _ => id) (fun _ => now) _ _ hs1
  have hID : (m.close_unneeded_relays defaults now).idle =
      (((m.pool.filter fun r => !((m.needed_relays defaults).contains r)).filter fun r =>
      match lookupAL ((m.pool.filter fun r => !((m.needed_relays defaults).contains r)).foldl (fun acc r => bumpBT acc r id now) ((m.needed_relays defaults).foldl (fun acc r => eraseAL acc r) m.idle)) r with
      | some t => decide (now - t > IDLE_EXPIRATION_SECS)
      | none => false).foldl (fun acc r => eraseAL acc r) ((m.pool.filter fun r => !((m.needed_relays defaults).contains r)).foldl (fun acc r => bumpBT acc r id now) ((m.needed_relays defaults).foldl (fun acc r => eraseAL acc r) m.idle))) := rfl
  have hPOOL : (m.close_unneeded_relays defaults now).pool =
      (m.pool.filter fun r => !(((m.pool.filter fun r => !((m.needed_relays defaults).contains r)).filter fun r =>
      match lookupAL ((m.pool.filter fun r => !((m.needed_relays defaults).contains r)).foldl (fun acc r => bumpBT acc r id now) ((m.needed_relays defaults).foldl (fun acc r => eraseAL acc r) m.idle)) r with
      | some t => decide (now - t > IDLE_EXPIRATION_SECS)
      | none => false).contains r)) := rfl
  have hlk1 : ∀ a, lookupAL ((m.needed_relays defaults).foldl (fun acc r => eraseAL acc r) m.idle) a =
      if a ∈ (m.needed_relays defaults) then none else lookupAL m.idle a :=
    fun a => lookupAL_foldl_eraseAL _ _ a hs
  have hlk2 : ∀ a, lookupAL ((m.pool.filter fun r => !((m.needed_relays defaults).contains r)).foldl (fun acc r => bumpBT acc r id now) ((m.needed_relays defaults).foldl (fun acc r => eraseAL acc r) m.idle)) a =
      if a ∈ (m.pool.filter fun r => !((m.needed_relays defaults).contains r)) then some ((lookupAL ((m.needed_relays defaults).foldl (fun acc r => eraseAL acc r) m.idle) a).getD now)
      else lookupAL ((m.needed_relays defaults).foldl (fun acc r => eraseAL acc r) m.idle) a :=
    fun a => lookupAL_foldl_bump_id now _ _ hs1 a
  have hlk3 : ∀ a, lookupAL (((m.pool.filter fun r => !((m.needed_relays defaults).contains r)).filter fun r =>
      match lookupAL ((m.pool.filter fun r => !((m.needed_relays defaults).contains r)).foldl (fun acc r => bumpBT acc r id now) ((m.needed_relays defaults).foldl (fun acc r => eraseAL acc r) m.idle)) r with
      | some t => decide (now - t > IDLE_EXPIRATION_SECS)
      | none => false).foldl (fun acc r => eraseAL acc r) ((m.pool.filter fun r => !((m.needed_relays defaults).contains r)).foldl (fun acc r => bumpBT acc r id now) ((m.needed_relays defaults).foldl (fun acc r => eraseAL acc r) m.idle))) a =
      if a ∈ ((m.pool.filter fun r => !((m.needed_relays defaults).contains r)).filter fun r =>
      match lookupAL ((m.pool.filter fun r => !((m.needed_relays defaults).contains r)).foldl (fun acc r => bumpBT acc r id now) ((m.needed_relays defaults).foldl (fun acc r => eraseAL acc r) m.idle)) r with
      | some t => decide (now - t > IDLE_EXPIRATION_SECS)
      | none => false) then none else lookupAL ((m.pool.filter fun r => !((m.needed_relays defaults).contains r)).foldl (fun acc r => bumpBT acc r id now) ((m.needed_relays defaults).foldl (fun acc r => eraseAL acc r) m.idle)) a :=
    fun a => lookupAL_foldl_eraseAL _ _ a hs2
  refine ⟨fun a => mem_needed_relays m defaults a, ?_, ?_, ?_⟩
  · intro r hpool hneed hnone
    have hun : r ∈ (m.pool.filter fun r => !((m.needed_relays defaults).contains r)) := by
      rw [List.mem_filter, contains_eq_false_of_not_mem hneed]
      exact ⟨hpool, rfl⟩
    have h2 : lookupAL ((m.pool.filter fun r => !((m.needed_relays defaults).contains r)).foldl (fun acc r => bumpBT acc r id now) ((m.needed_relays defaults).foldl (fun acc r => eraseAL acc r) m.idle)) r = some now := by
      rw [hlk2 r, if_pos hun, hlk1 r, if_neg hneed, hnone]
      rfl
    have hexp : ¬r ∈ ((m.pool.filter fun r => !((m.needed_relays defaults).contains r)).filter fun r =>
      match lookupAL ((m.pool.filter fun r => !((m.needed_relays defaults).contains r)).foldl (fun acc r => bumpBT acc r id now) ((m.needed_relays defaults).foldl (fun acc r => eraseAL acc r) m.idle)) r with
      | some t => decide (now - t > IDLE_EXPIRATION_SECS)
      | none => false) := by
      rw [List.mem_filter]
      rintro ⟨-, hpred⟩
      rw [h2] at hpred
      simp [IDLE_EXPIRATION_SECS] at hpred
    constructor
    · rw [hID, hlk3 r, if_neg hexp, h2]
    · rw [hPOOL, List.mem_filter, contains_eq_false_of_not_mem hexp]
      exact ⟨hpool, rfl⟩
  · intro r t hpool hneed hsome hold
    have hun : r ∈ (m.pool.filter fun r => !((m.needed_relays defaults).contains r)) := by
      rw [List.mem_filter, contains_eq_false_of_not_mem hneed]
      exact ⟨hpool, rfl⟩
    have h2 : lookupAL ((m.pool.filter fun r => !((m.needed_relays defaults).contains r)).foldl (fun acc r => bumpBT acc r id now) ((m.needed_relays defaults).foldl (fun acc r => eraseAL acc r) m.idle)) r = some t := by
      rw [hlk2 r, if_pos hun, hlk1 r, if_neg hneed, hsome]
      rfl
    have hexp : r ∈ ((m.pool.filter fun r => !((m.needed_relays defaults).contains r)).filter fun r =>
      match lookupAL ((m.pool.filter fun r => !((m.needed_relays defaults).contains r)).foldl (fun acc r => bumpBT acc r id now) ((m.needed_relays defaults).foldl (fun acc r => eraseAL acc r) m.idle)) r with
      | some t => decide (now - t > IDLE_EXPIRATION_SECS)
      | none => false) := by
      rw [List.mem_filter]
      refine ⟨hun, ?_⟩
      rw [h2]
      simpa [IDLE_EXPIRATION_SECS] using hold
    constructor
    · rw [hPOOL, List.mem_filter]
      rintro ⟨-, hc⟩
      have hcf := eq_false_of_bnot_eq_true hc
      exact absurd hexp (not_mem_of_contains_eq_false hcf)
    · rw [hID, hlk3 r, if_pos hexp]
  · intro r hneed
    have hun : ¬r ∈ (m.pool.filter fun r => !((m.needed_relays defaults).contains r)) := by
      rw [List.mem_filter]
      rintro ⟨-, hc⟩
      have hcf := eq_false_of_bnot_eq_true hc
      exact absurd hneed (not_mem_of_contains_eq_false hcf)
    have hexp : ¬r ∈ ((m.pool.filter fun r => !((m.needed_relays defaults).contains r)).filter fun r =>
      match lookupAL ((m.pool.filter fun r => !((m.needed_relays defaults).contains r)).foldl (fun acc r => bumpBT acc r id now) ((m.needed_relays defaults).foldl (fun acc r => eraseAL acc r) m.idle)) r with
      | some t => decide (now - t > IDLE_EXPIRATION_SECS)
      | none => false) := by
      rw [List.mem_filter]
      rintro ⟨hin, -⟩
      exact hun hin
    constructor
    · rw [hID, hlk3 r, if_neg hexp, hlk2 r, if_neg hun, hlk1 r, if_pos hneed]
    · rw [hPOOL, List.mem_filter]
      constructor
      · rintro ⟨hin, -⟩
        exact hin
      · intro hin
        rw [contains_eq_false_of_not_mem hexp]
        exact ⟨hin, rfl⟩

/-- C5 amended witness. -/
theorem claim_c5_amended_witness :
    lookupAL
        (SubMan.close_unneeded_relays ⟨[], [], [("wss://b", 0)], ["wss://b"]⟩
          [] 21).idle "wss://b" = none ∧
    ¬"wss://b" ∈
      (SubMan.close_unneeded_relays ⟨[], [], [("wss://b", 0)], ["wss://b"]⟩
        [] 21).pool := by
  have h := (claim_c5_amended ⟨[], [], [("wss://b", 0)], ["wss://b"]⟩ [] 21
    (by decide)).2.2.1 "wss://b" 0 (by decide) (by decide) rfl (by decide)
  exact ⟨h.2, h.1⟩


/-- C6: `generate_resolution_requests` groups ids into an `""`
(default-relays) bucket plus one bucket per hinted relay, chunks pubkeys and
note ids separately into runs of at most 500, and emits one SubSpec per chunk
carrying `OneShot` and `OnlyRemote`, with `AllowedRelays([relay])` exactly
for hinted buckets, a single `authors + kinds=[0]` filter for pubkey chunks
and a single `ids` filter for note chunks. -/
theorem claim_c6 (u : UnknownIds) (genId : String) :
    (∀ s ∈ u.generate_resolution_requests genId,
      s.is_oneshot = true ∧ s.is_onlyremote = true ∧ s.is_onlylocal = false ∧
      ∃ relay pks nids, (relay, (pks, nids)) ∈ idsByRelay u.ids ∧
        s.allowed_relays = (if relay = "" then [] else [relay]) ∧
        ((∃ c ∈ chunksMax pks, c.length ≤ 500 ∧ c ≠ [] ∧
            s.filters = [{ authors := c, kinds := [0], ids := [] }]) ∨
          (∃ c ∈ chunksMax nids, c.length ≤ 500 ∧ c ≠ [] ∧
            s.filters = [{ authors := [], kinds := [], ids := c }]))) ∧
    (∀ relay pks nids, (relay, (pks, nids)) ∈ idsByRelay u.ids →
      (∀ c ∈ chunksMax pks,
        pkChunkSpec genId relay c ∈ u.generate_resolution_requests genId) ∧
      (∀ c ∈ chunksMax nids,
        nidChunkSpec genId relay c ∈ u.generate_resolution_requests genId) ∧
      (chunksMax pks).flatten = pks ∧ (chunksMax nids).flatten = nids) ∧
    (∀ relay, (∃ e, (relay, e) ∈ idsByRelay u.ids) ↔
      (relay = "" ∧ u.ids ≠ []) ∨ ∃ p ∈ u.ids, relay ∈ p.2) := by
  refine ⟨?_, ?_, ?_⟩
  · intro s hs
    rw [mem_generate_resolution_requests] at hs
    obtain ⟨p, hp, hcase⟩ := hs
    obtain ⟨relay, pks, nids⟩ := p
    rcases hcase with ⟨c, hc, rfl⟩ | ⟨c, hc, rfl⟩
    · refine ⟨?_, ?_, ?_, relay, pks, nids, hp, ?_,
        Or.inl ⟨c, hc, (mem_chunksMax _ _ hc).1, (mem_chunksMax _ _ hc).2, ?_⟩⟩ <;>
        simp [pkChunkSpec_eq]
    · refine ⟨?_, ?_, ?_, relay, pks, nids, hp, ?_,
        Or.inr ⟨c, hc, (mem_chunksMax _ _ hc).1, (mem_chunksMax _ _ hc).2, ?_⟩⟩ <;>
        simp [nidChunkSpec_eq]
  · intro relay pks nids hmem
    refine ⟨?_, ?_, join_chunksMax pks, join_chunksMax nids⟩
    · intro c hc
      rw [mem_generate_resolution_requests]
      exact ⟨(relay, (pks, nids)), hmem, Or.inl ⟨c, hc, rfl⟩⟩
    · intro c hc
      rw [mem_generate_resolution_requests]
      exact ⟨(relay, (pks, nids)), hmem, Or.inr ⟨c, hc, rfl⟩⟩
  · intro relay
    have h := keys_idsByRelay u.ids relay
    constructor
    · rintro ⟨e, he⟩
      have hk : relay ∈ (idsByRelay u.ids).map Prod.fst :=
        List.mem_map_of_mem Prod.fst he
      rcases h.mp hk with ⟨p, hp, hrel⟩
      rcases List.mem_cons.mp hrel with h1 | h1
      · refine Or.inl ⟨h1, ?_⟩
        intro hnil
        rw [hnil] at hp
        simp at hp
      · exact Or.inr ⟨p, hp, h1⟩
    · rintro (⟨rfl, hne⟩ | ⟨p, hp, hrel⟩)
      · obtain ⟨p, hp⟩ := List.exists_mem_of_ne_nil u.ids hne
        have hk : "" ∈ (idsByRelay u.ids).map Prod.fst :=
          h.mpr ⟨p, hp, by simp⟩
        rcases List.mem_map.mp hk with ⟨q, hq, hq1⟩
        refine ⟨q.2, ?_⟩
        rw [← hq1]
        exact hq
      · have hk : relay ∈ (idsByRelay u.ids).map Prod.fst :=
          h.mpr ⟨p, hp, List.mem_cons_of_mem _ hrel⟩
        rcases List.mem_map.mp hk with ⟨q, hq, hq1⟩
        refine ⟨q.2, ?_⟩
        rw [← hq1]
        exact hq

/-- C6 witness. -/
theorem claim_c6_witness :
    pkChunkSpec "u" "" [1]
        ∈ UnknownIds.generate_resolution_requests
          ⟨[(.pubkey 1, [])], none, none⟩ "u" := by
  have hch : chunksMax [1] = [[1]] := by
    rw [chunksMax_eq]
    simp [MAX_CHUNK_IDS, chunksMax_eq]
  have h := (claim_c6 ⟨[(.pubkey 1, [])], none, none⟩ "u").2.1
  exact (h "" [1] [] (by decide)).1 [1] (by rw [hch]; exact List.mem_singleton.mpr rfl)


/-- C8 amended witness. -/
theorem claim_c8_amended_witness :
    (Accounts.remove_account ⟨[10, 20, 30], some 2, [10, 20, 30]⟩ 0).accounts
      = [20, 30] ∧
    (Accounts.remove_account ⟨[10, 20, 30], some 2, [10, 20, 30]⟩ 0).storage
      = [20, 30] ∧
    (Accounts.remove_account ⟨[10, 20, 30], some 2,
        [10, 20, 30]⟩ 0).currently_selected_account = some 1 := by
  have h := claim_c8_amended ⟨[10, 20, 30], some 2, [10, 20, 30]⟩ 0 (by decide)
    (by intro s hs; injection hs with h2; subst h2; decide)
  exact ⟨h.1.trans (by decide), h.2.1.trans (by decide), h.2.2.trans (by decide)⟩

end Notedeck
